import Mathlib

/-!
# Verification of the stoichiometric-balance core (`quimica.js`)

Shallow embedding of the chemistry core of the repository: formula and
equation parsing, balance verification, molar-mass conversions and the
stoichiometry engine.  JavaScript numbers are modelled as exact rationals
(`ℚ`); JavaScript exceptions (`throw`) are modelled with `Except JsError`;
JavaScript objects used as string-keyed maps are modelled as association
lists in insertion order (which is the `for … in` iteration order for the
non-numeric keys used here).
-/

/-- The kinds of runtime error the source can raise:
* `sintaxis`  – the `throw new Error(…)` in `parsearEcuacion` (the arrow check);
* `tipo`      – a JavaScript `TypeError` from reading a property of
  `undefined`/`null` (unmatched `)` in `parsearFormula`, or the null
  `limitante` in `encontrarReactivoLimitante`);
* `elementoDesconocido` – the `throw` in `calcularMasaMolar`;
* `generico`  – the `throw new Error(…)` calls in `calcularEstequiometria`. -/
inductive JsError where
  | sintaxis (msg : String)
  | tipo (msg : String)
  | elementoDesconocido (msg : String)
  | generico (msg : String)
deriving DecidableEq, Repr

/-- `error.message` of a raised error. -/
def JsError.message : JsError → String
  | .sintaxis m => m
  | .tipo m => m
  | .elementoDesconocido m => m
  | .generico m => m

deriving instance DecidableEq for Except

/-- An element-count map (`{H: 2, O: 1}`), as an association list in
insertion order. -/
abbrev Conteo := List (String × ℕ)

/-- `grupoActual[elemento] ? += n : = n`.  (The source tests truthiness of
the stored value; a stored `0` takes the assignment branch, which coincides
with `0 + n`, and keeps the key's original position, so testing key
presence is extensionally identical.) -/
def addConteo (m : Conteo) (el : String) (n : ℕ) : Conteo :=
  if (m.lookup el).isSome then
    m.map (fun p => if p.1 = el then (p.1, p.2 + n) else p)
  else
    m ++ [(el, n)]

/-- Reads the maximal leading run of decimal digits (`/\d/`),
returning the run and the rest. -/
def leerDigitos : List Char → List Char × List Char
  | [] => ([], [])
  | c :: rest =>
    if c.isDigit then
      let p := leerDigitos rest
      (c :: p.1, p.2)
    else ([], c :: rest)

/-- Reads the maximal leading run of lowercase letters (`/[a-z]/`). -/
def leerMinusculas : List Char → List Char × List Char
  | [] => ([], [])
  | c :: rest =>
    if c.isLower then
      let p := leerMinusculas rest
      (c :: p.1, p.2)
    else ([], c :: rest)

/-- `parseInt` on a run of decimal digits. -/
def parseNat (s : List Char) : ℕ :=
  s.foldl (fun acc c => acc * 10 + (c.toNat - 48)) 0

/-- A digit run as read by the source: an empty run means the written
number is absent and the multiplier defaults to 1. -/
def valorNumero (run : List Char) : ℕ :=
  if run.isEmpty then 1 else parseNat run

/-- The value `parsearFormula` returns at end of input: the frozen
`resultado` if the bottom frame was ever popped, else the current bottom
of the stack. -/
def resultadoFinal (pila : List Conteo) (frozen : Option Conteo) : Conteo :=
  match frozen with
  | some r => r
  | none => (pila.getLast?).getD []

/-- Freezing rule when the bottom frame `grupo` is popped: record it as
`resultado`'s final value unless an earlier pop already froze one. -/
def congelar (frozen : Option Conteo) (grupo : Conteo) : Option Conteo :=
  match frozen with
  | none => some grupo
  | some r => some r

/-- The scanning loop of `parsearFormula`.

State: `pila` is the stack of count frames (top at the head; the bottom
frame is `resultado` until it is popped), `frozen` records the value of
`resultado` at the moment it was popped off the stack (after that moment
nothing can mutate it, and the function returns it at the end).  `none`
models the JavaScript `TypeError` crashes: adding an element token when
the stack is empty, or merging a non-empty popped group into
`pila[pila.length - 1] === undefined`.  A `)` on an already-empty stack is
*not* a crash (`[].pop()` gives `undefined` and `for … in undefined` does
nothing).

The loop recurses structurally on a fuel argument so that the kernel can
evaluate it; every iteration of the source loop consumes at least one
character, so fuel `l.length` (as passed by `parsearFormula`) always
suffices and the fuel-exhaustion branch is unreachable. -/
def pfLoop : ℕ → List Char → List Conteo → Option Conteo → Option Conteo
  | _, [], pila, frozen => some (resultadoFinal pila frozen)
  | 0, _ :: _, _, _ => none -- combustible agotado: inalcanzable
  | fuel + 1, c :: rest, pila, frozen =>
    if c = '(' then
      pfLoop fuel rest ([] :: pila) frozen
    else if c = ')' then
      let d := leerDigitos rest
      let mult := valorNumero d.1
      match pila with
      | [] => -- pop de una pila ya vacía: grupo = undefined, sin efecto
        pfLoop fuel d.2 [] frozen
      | grupo :: resto =>
        match resto with
        | [] =>
          -- se sacó el fondo de la pila; si es `resultado`, congelar su valor
          if grupo.isEmpty then pfLoop fuel d.2 [] (congelar frozen grupo)
          else none -- merge en grupoActual = undefined: TypeError
        | actual :: resto' =>
          pfLoop fuel d.2
            ((grupo.foldl (fun acc p => addConteo acc p.1 (p.2 * mult)) actual) :: resto')
            frozen
    else if c.isUpper then
      let lm := leerMinusculas rest
      let elemento : String := ⟨c :: lm.1⟩
      let d := leerDigitos lm.2
      let sub := valorNumero d.1
      match pila with
      | [] => none -- grupoActual = undefined: TypeError
      | actual :: resto => pfLoop fuel d.2 ((addConteo actual elemento sub) :: resto) frozen
    else
      pfLoop fuel rest pila frozen

/-- `parsearFormula`: scans the formula left to right, maintaining a stack of
count maps whose bottom frame is the result.  `none` from the loop is the
JavaScript `TypeError` on an unmatched `)` followed by more element
tokens. -/
def parsearFormula (formula : String) : Except JsError Conteo :=
  match pfLoop formula.data.length formula.data [[]] none with
  | some r => .ok r
  | none => .error (.tipo "Cannot read properties of undefined")

/-- A compound term with its stoichiometric coefficient
(`2H2O` → coefficient 2, formula `H2O`). -/
structure Compuesto where
  coeficiente : ℕ
  formula : String
  elementos : Conteo
deriving DecidableEq, Repr

/-- JavaScript `String.prototype.trim` on a character list. -/
def trimChars (l : List Char) : List Char :=
  ((l.dropWhile Char.isWhitespace).reverse.dropWhile Char.isWhitespace).reverse

/-- `parsearCompuesto`: trims, reads a leading digit run as the coefficient
(default 1), the remainder is the formula. -/
def parsearCompuesto (compuesto : String) : Except JsError Compuesto :=
  let t := trimChars compuesto.data
  let d := leerDigitos t
  let coeficiente := valorNumero d.1
  let formula : String := ⟨d.2⟩
  (parsearFormula formula).map (fun elementos => ⟨coeficiente, formula, elementos⟩)

/-- A parsed equation: reactant and product terms in input order. -/
structure Ecuacion where
  reactivos : List Compuesto
  productos : List Compuesto
deriving DecidableEq, Repr

/-- `ecuacion.replace(/→/g, '->').replace(/=/g, '->')`: each `→` and each
`=` becomes the two characters `->` (the first replacement introduces no
`=`, so performing both in one pass is equivalent). -/
def normalizarFlecha (l : List Char) : List Char :=
  l.flatMap (fun c => if c = '→' ∨ c = '=' then ['-', '>'] else [c])

/-- `split('->')`: leftmost, non-overlapping. -/
def separarFlecha : List Char → List (List Char)
  | [] => [[]]
  | '-' :: '>' :: rest => [] :: separarFlecha rest
  | c :: rest =>
    match separarFlecha rest with
    | [] => [[c]]
    | p :: ps => (c :: p) :: ps

/-- `split('+')`. -/
def separarMas : List Char → List (List Char)
  | [] => [[]]
  | '+' :: rest => [] :: separarMas rest
  | c :: rest =>
    match separarMas rest with
    | [] => [[c]]
    | p :: ps => (c :: p) :: ps

/-- `parsearEcuacion`: normalizes the arrow, splits on `->`, requires
exactly two parts (else the thrown `Error` about the reaction arrow),
trims each side, splits the sides on `+` and parses every segment as a
compound. -/
def parsearEcuacion (ecuacion : String) : Except JsError Ecuacion :=
  match separarFlecha (normalizarFlecha ecuacion.data) with
  | [ladoReactivos, ladoProductos] => do
    let reactivos ← (separarMas (trimChars ladoReactivos)).mapM
      (fun r => parsearCompuesto ⟨r⟩)
    let productos ← (separarMas (trimChars ladoProductos)).mapM
      (fun p => parsearCompuesto ⟨p⟩)
    .ok ⟨reactivos, productos⟩
  | _ => .error (.sintaxis "La ecuación debe tener exactamente una flecha de reacción (-> o →)")

/-- `contarAtomos`: sums `elementos[el] * coeficiente` over all given
compounds, in iteration order. -/
def contarAtomos (compuestos : List Compuesto) : Conteo :=
  compuestos.foldl
    (fun conteo compuesto =>
      compuesto.elementos.foldl
        (fun ct p => addConteo ct p.1 (p.2 * compuesto.coeficiente)) conteo)
    []

/-- Per-element detail recorded by `verificarBalance`. -/
structure Detalle where
  reactivos : ℕ
  productos : ℕ
  balanceado : Bool
deriving DecidableEq, Repr

/-- Result of `verificarBalance`. -/
structure Balance where
  balanceada : Bool
  detalles : List (String × Detalle)
deriving DecidableEq, Repr

/-- The keys of a count map, in insertion order (`Object.keys`). -/
def claves (m : Conteo) : List String := m.map (·.1)

/-- `new Set([...a, ...b])` iterated in insertion order: first occurrences,
in order. -/
def unionClaves (l : List String) : List String :=
  l.foldl (fun acc k => if k ∈ acc then acc else acc ++ [k]) []

/-- `conteo[elemento] || 0`. -/
def cuenta (m : Conteo) (el : String) : ℕ := (m.lookup el).getD 0

/-- `verificarBalance`: parses, counts atoms per side, and for each element
present on either side records both counts; balanced overall iff every
element matches. -/
def verificarBalance (ecuacion : String) : Except JsError Balance := do
  let parseada ← parsearEcuacion ecuacion
  let atomosReactivos := contarAtomos parseada.reactivos
  let atomosProductos := contarAtomos parseada.productos
  let elementos := unionClaves (claves atomosReactivos ++ claves atomosProductos)
  let r := elementos.foldl
    (fun (acc : List (String × Detalle) × Bool) elemento =>
      let enReactivos := cuenta atomosReactivos elemento
      let enProductos := cuenta atomosProductos elemento
      (acc.1 ++ [(elemento, ⟨enReactivos, enProductos, enReactivos == enProductos⟩)],
       acc.2 && (enReactivos == enProductos)))
    ([], true)
  .ok ⟨r.2, r.1⟩

/-- An entry of the element table. -/
structure Elemento where
  masaAtomica : ℚ
  nombre : String
deriving DecidableEq, Repr

/-- Modelled from the spec: the Element Table `ELEMENTOS` (§2, §6), an
external static mapping from element symbol to atomic mass and display
name, whose defining source file is not among the analyzed sources (only
its uses are).  Reconstructed here with standard atomic masses, restricted
to the elements exercised by the specification's examples;
every theorem that is generic in the table quantifies over
`calcularMasaMolar`'s result instead of fixing these values. -/
def ELEMENTOS : List (String × Elemento) :=
  [("H", ⟨1.008, "Hidrógeno"⟩),
   ("O", ⟨15.999, "Oxígeno"⟩),
   ("C", ⟨12.011, "Carbono"⟩),
   ("N", ⟨14.007, "Nitrógeno"⟩),
   ("S", ⟨32.06, "Azufre"⟩),
   ("Ca", ⟨40.078, "Calcio"⟩),
   ("Al", ⟨26.982, "Aluminio"⟩),
   ("Fe", ⟨55.845, "Hierro"⟩),
   ("Na", ⟨22.990, "Sodio"⟩),
   ("Cl", ⟨35.45, "Cloro"⟩)]

/-- Result of `validarElementos`. -/
structure ValElems where
  valida : Bool
  elementosInvalidos : List String
deriving DecidableEq, Repr

/-- `validarElementos`: parses the formula and reports the symbols absent
from the element table, in first-seen order. -/
def validarElementos (formula : String) : Except JsError ValElems := do
  let elementos ← parsearFormula formula
  let invalidos := (claves elementos).filter (fun s => (ELEMENTOS.lookup s).isNone)
  .ok ⟨invalidos.isEmpty, invalidos⟩

/-- Result of `validarEcuacion`. -/
structure Validacion where
  valida : Bool
  error : Option String
deriving DecidableEq, Repr

/-- The per-compound element check loop of `validarEcuacion`:
short-circuits on the first compound whose validation fails. -/
def validarCompuestos : List Compuesto → Except JsError Validacion
  | [] => .ok ⟨true, none⟩
  | c :: rest => do
    let v ← validarElementos c.formula
    if !v.valida then
      .ok ⟨false, some ("Elemento(s) no reconocido(s): "
                        ++ String.intercalate ", " v.elementosInvalidos)⟩
    else
      validarCompuestos rest

/-- `validarEcuacion`: try/catch around parse + arity checks + element
checks; any raised error is caught and surfaced as `error.message`. -/
def validarEcuacion (ecuacion : String) : Validacion :=
  match (do
    let parseada ← parsearEcuacion ecuacion
    if parseada.reactivos.length = 0 then
      .ok ⟨false, some "La ecuación debe tener al menos un reactivo."⟩
    else if parseada.productos.length = 0 then
      .ok ⟨false, some "La ecuación debe tener al menos un producto."⟩
    else
      validarCompuestos (parseada.reactivos ++ parseada.productos)
    : Except JsError Validacion) with
  | .ok v => v
  | .error e => ⟨false, some e.message⟩

/-- `calcularMasaMolar`: sums `masaAtomica * count` over the parsed
formula's elements; raises on a symbol absent from the table. -/
def calcularMasaMolar (formula : String) : Except JsError ℚ := do
  let elementos ← parsearFormula formula
  elementos.foldlM
    (fun masaTotal p =>
      match ELEMENTOS.lookup p.1 with
      | none => .error (.elementoDesconocido ("Elemento no reconocido: " ++ p.1))
      | some e => .ok (masaTotal + e.masaAtomica * (p.2 : ℚ)))
    0

/-- `masaAMoles`: mass / molar mass. -/
def masaAMoles (masa : ℚ) (formula : String) : Except JsError ℚ :=
  (calcularMasaMolar formula).map (fun masaMolar => masa / masaMolar)

/-- `molesAMasa`: moles * molar mass. -/
def molesAMasa (moles : ℚ) (formula : String) : Except JsError ℚ :=
  (calcularMasaMolar formula).map (fun masaMolar => moles * masaMolar)

/-- A reactant record as consumed by the stoichiometry functions
(`{ formula, moles, pureza }`; the pipeline additionally records
`masaInicial`).  `moles = none` models a JavaScript `undefined` moles
value. -/
structure DatoReactivo where
  formula : String
  moles : Option ℚ
  pureza : ℚ
  masaInicial : ℚ
deriving DecidableEq, Repr

/-- The limiting-reagent record `{ formula, moles, proporcion }`. -/
structure InfoLimitante where
  formula : String
  moles : ℚ
  proporcion : ℚ
deriving DecidableEq, Repr

/-- `parseada.reactivos.find(r => r.formula === dato.formula)?.coeficiente || 1`:
the coefficient of the matching reactant term, except that both a missing
term (`undefined`) and a written coefficient `0` are falsy and default
to 1. -/
def coeficienteDe (parseada : Ecuacion) (formula : String) : ℚ :=
  match parseada.reactivos.find? (fun r => r.formula == formula) with
  | some r => if r.coeficiente = 0 then 1 else (r.coeficiente : ℚ)
  | none => 1

/-- One iteration of the limiting-reagent loop over
`(formula, effective moles, coefficient)` triples: a strictly smaller
ratio replaces the current candidate (`Infinity` initially, modelled by
`none`).  An `undefined` moles value gives a `NaN` ratio, whose `<`
comparison is false, so the candidate is kept. -/
def pasoLimitante (acc : Option InfoLimitante) (re : String × Option ℚ × ℚ) :
    Option InfoLimitante :=
  match re.2.1 with
  | none => acc
  | some me =>
    let proporcion := me / re.2.2
    match acc with
    | none => some ⟨re.1, me, proporcion⟩
    | some l => if proporcion < l.proporcion then some ⟨re.1, me, proporcion⟩ else acc

/-- The `molesEfectivos` entry built for one reactant datum:
`{ formula, moles: moles * (pureza/100), coeficiente }`. -/
def trioDe (parseada : Ecuacion) (dato : DatoReactivo) : String × Option ℚ × ℚ :=
  (dato.formula,
   dato.moles.map (fun m => m * (dato.pureza / 100)),
   coeficienteDe parseada dato.formula)

/-- `encontrarReactivoLimitante`: effective moles are
`moles * (pureza/100)`; the reactant whose `moles/coeficiente` ratio is
strictly smallest wins (first seen wins ties).  With no candidate
(`limitante === null`, e.g. an empty reactant list) reading
`limitante.formula` raises a `TypeError`. -/
def encontrarReactivoLimitante (ecuacion : String)
    (datosReactivos : List DatoReactivo) : Except JsError InfoLimitante := do
  let parseada ← parsearEcuacion ecuacion
  let molesEfectivos := datosReactivos.map (trioDe parseada)
  match molesEfectivos.foldl pasoLimitante none with
  | some l => .ok l
  | none => .error (.tipo "Cannot read properties of null (reading 'formula')")

/-- An excess-reactant record. -/
structure Exceso where
  formula : String
  molesIniciales : ℚ
  molesUsados : ℚ
  molesSobrantes : ℚ
  masaSobrante : ℚ
deriving DecidableEq, Repr

/-- `calcularExceso`: for every non-limiting reactant that appears in the
equation, leftover = effective moles − `limitante.proporcion * coeficiente`.
(An `undefined` moles value makes the arithmetic `NaN` in the source; the
surrogate `getD 0` value is never inspected by any verified claim.) -/
def calcularExceso (ecuacion : String) (datosReactivos : List DatoReactivo)
    (limitante : InfoLimitante) : Except JsError (List Exceso) := do
  let parseada ← parsearEcuacion ecuacion
  datosReactivos.foldlM
    (fun excesos dato =>
      if dato.formula == limitante.formula then .ok excesos
      else
        match parseada.reactivos.find? (fun r => r.formula == dato.formula) with
        | none => .ok excesos
        | some reactivo => do
          let molesEfectivos := (dato.moles.getD 0) * (dato.pureza / 100)
          let molesNecesarios := limitante.proporcion * (reactivo.coeficiente : ℚ)
          let molesSobrantes := molesEfectivos - molesNecesarios
          let masaSobrante ← molesAMasa molesSobrantes dato.formula
          .ok (excesos ++
            [⟨dato.formula, molesEfectivos, molesNecesarios, molesSobrantes, masaSobrante⟩]))
    []

/-- A theoretical-yield record (field `molesTeoricoS` spelled as in the source). -/
structure ProductoTeorico where
  formula : String
  coeficiente : ℕ
  molesTeoricoS : ℚ
  masaTeorica : ℚ
deriving DecidableEq, Repr

/-- `calcularRendimientoTeorico`: per product,
moles = `limitante.proporcion * coeficiente`, mass via `molesAMasa`. -/
def calcularRendimientoTeorico (ecuacion : String) (limitante : InfoLimitante) :
    Except JsError (List ProductoTeorico) := do
  let parseada ← parsearEcuacion ecuacion
  parseada.productos.foldlM
    (fun productos producto => do
      let moles := limitante.proporcion * (producto.coeficiente : ℚ)
      let masa ← molesAMasa moles producto.formula
      .ok (productos ++ [⟨producto.formula, producto.coeficiente, moles, masa⟩]))
    []

/-- `calcularPorcentajeRendimiento`: `(real / teorico) * 100`, or 0 when
the theoretical amount is exactly 0. -/
def calcularPorcentajeRendimiento (rendimientoReal rendimientoTeorico : ℚ) : ℚ :=
  if rendimientoTeorico = 0 then 0
  else rendimientoReal / rendimientoTeorico * 100

/-- A caller-supplied reactant input `{ formula, masa?, moles?, pureza? }`. -/
structure DatoEntrada where
  formula : String
  masa : Option ℚ
  moles : Option ℚ
  pureza : Option ℚ
deriving DecidableEq, Repr

/-- The optional actual-product record `{ formula, masaReal?, molesReales? }`. -/
structure ProductoReal where
  formula : String
  masaReal : Option ℚ
  molesReales : Option ℚ
deriving DecidableEq, Repr

/-- Limiting-reagent part of the assembled result. -/
structure ResLimitante where
  formula : String
  masaMolar : ℚ
  molesUsados : ℚ
deriving DecidableEq, Repr

/-- Excess part of the assembled result. -/
structure ResExceso where
  formula : String
  masaMolar : ℚ
  molesIniciales : ℚ
  molesUsados : ℚ
  molesSobrantes : ℚ
  masaSobrante : ℚ
deriving DecidableEq, Repr

/-- Product part of the assembled result. -/
structure ResProducto where
  formula : String
  masaMolar : ℚ
  molesTeoricos : ℚ
  masaTeorica : ℚ
deriving DecidableEq, Repr

/-- The full `StoichiometryResult` record. -/
structure Resultado where
  ecuacionValida : Bool
  balanceada : Bool
  reactivoLimitante : ResLimitante
  reactivosEnExceso : List ResExceso
  productos : List ResProducto
  porcentajeRendimiento : Option ℚ
deriving DecidableEq, Repr

/-- Input normalization (step 3): derive moles from mass when moles was
not given directly; record an initial mass (`masa || molesAMasa(moles,
formula)`, so an absent or zero mass takes the derived branch); purity
defaults to 100 when absent or zero (`pureza || 100`).  When neither mass
nor moles is given the source leaves `moles` `undefined` (here `none`) and
the recorded initial mass is `NaN` in the source; the embedding stores the
`getD 0` surrogate, a value no verified claim reads. -/
def normalizarDato (dato : DatoEntrada) : Except JsError DatoReactivo := do
  let moles : Option ℚ ←
    match dato.masa, dato.moles with
    | some ms, none => (masaAMoles ms dato.formula).map some
    | _, _ => .ok dato.moles
  let masaInicial : ℚ ←
    match dato.masa with
    | some ms =>
      if ms = 0 then molesAMasa (moles.getD 0) dato.formula else .ok ms
    | none => molesAMasa (moles.getD 0) dato.formula
  let pureza : ℚ :=
    match dato.pureza with
    | some p => if p = 0 then 100 else p
    | none => 100
  .ok ⟨dato.formula, moles, pureza, masaInicial⟩

/-- The optional percent-yield step (lines 517–534 of the source): if an
actual-product record was supplied and a theoretical entry matches its
formula, the actual mass is taken from `masaReal`, *overridden* by
`molesAMasa(molesReales, formula)` whenever `molesReales` is present, and
fed to `calcularPorcentajeRendimiento` against the theoretical mass.  When
neither `masaReal` nor `molesReales` is supplied the source computes a
`NaN` percentage; the embedding returns `none` there (no verified claim
inspects that case). -/
def calcularPorcentajeOpcional (productosTeoricos : List ProductoTeorico)
    (datosProductoReal : Option ProductoReal) : Except JsError (Option ℚ) :=
  match datosProductoReal with
  | none => .ok none
  | some dpr =>
    match productosTeoricos.find? (fun p => p.formula == dpr.formula) with
    | none => .ok none
    | some productoTeorico => do
      let masaReal : Option ℚ ←
        match dpr.molesReales with
        | some nr => (molesAMasa nr dpr.formula).map some
        | none => .ok dpr.masaReal
      .ok (masaReal.map
        (fun mr => calcularPorcentajeRendimiento mr productoTeorico.masaTeorica))

/-- Result-record entry for an excess reactant (molar mass recomputed). -/
def excesoARes (e : Exceso) : Except JsError ResExceso := do
  let mm ← calcularMasaMolar e.formula
  .ok ⟨e.formula, mm, e.molesIniciales, e.molesUsados, e.molesSobrantes, e.masaSobrante⟩

/-- Result-record entry for a theoretical product (molar mass recomputed). -/
def productoARes (p : ProductoTeorico) : Except JsError ResProducto := do
  let mm ← calcularMasaMolar p.formula
  .ok ⟨p.formula, mm, p.molesTeoricoS, p.masaTeorica⟩

/-- `calcularEstequiometria`: validate, verify balance, normalize inputs,
find the limiting reagent, compute excess, theoretical yield and the
optional percent yield, and assemble the result record. -/
def calcularEstequiometria (ecuacion : String) (datosReactivos : List DatoEntrada)
    (datosProductoReal : Option ProductoReal) : Except JsError Resultado := do
  let validacion := validarEcuacion ecuacion
  if !validacion.valida then
    throw (.generico (validacion.error.getD ""))
  let balance ← verificarBalance ecuacion
  if !balance.balanceada then
    throw (.generico "La ecuación no está balanceada.")
  let reactivosConMoles ← datosReactivos.mapM normalizarDato
  let limitante ← encontrarReactivoLimitante ecuacion reactivosConMoles
  let excesos ← calcularExceso ecuacion reactivosConMoles limitante
  let productosTeoricos ← calcularRendimientoTeorico ecuacion limitante
  let porcentajeRendimiento ← calcularPorcentajeOpcional productosTeoricos datosProductoReal
  let masaMolarLimitante ← calcularMasaMolar limitante.formula
  let reactivosEnExceso ← excesos.mapM excesoARes
  let productosRes ← productosTeoricos.mapM productoARes
  .ok ⟨true, true,
       ⟨limitante.formula, masaMolarLimitante, limitante.moles⟩,
       reactivosEnExceso, productosRes, porcentajeRendimiento⟩

/-- The `moles/coeficiente` ratio of a `molesEfectivos` triple (the `getD`
value is irrelevant for triples whose moles value is present). -/
def propTrio (x : String × Option ℚ × ℚ) : ℚ := (x.2.1.getD 0) / x.2.2

/-- The candidate record built from a `molesEfectivos` triple. -/
def infoTrio (x : String × Option ℚ × ℚ) : InfoLimitante :=
  ⟨x.1, x.2.1.getD 0, propTrio x⟩

/-- The ratio of a reactant datum as the claim states it: effective moles
(`moles * purity/100`) divided by the coefficient looked up in the parsed
equation's reactant list by exact formula match, defaulting to 1 when
there is no match. -/
def razonDe (pe : Ecuacion) (d : DatoReactivo) : ℚ :=
  ((d.moles.getD 0) * (d.pureza / 100)) /
    (((pe.reactivos.find? (fun r => r.formula == d.formula)).map
        (fun r => (r.coeficiente : ℚ))).getD 1)

/-- Scaling a reactant datum's moles by `k` (formula, purity fixed). -/
def escalarDato (k : ℚ) (d : DatoReactivo) : DatoReactivo :=
  ⟨d.formula, d.moles.map (fun m => k * m), d.pureza, d.masaInicial⟩

/-- Scaling a candidate record by `k`. -/
def escalarInfo (k : ℚ) (l : InfoLimitante) : InfoLimitante :=
  ⟨l.formula, k * l.moles, k * l.proporcion⟩

/-- Scaling a `molesEfectivos` triple by `k`. -/
def escalarTrio (k : ℚ) (x : String × Option ℚ × ℚ) : String × Option ℚ × ℚ :=
  (x.1, x.2.1.map (fun m => k * m), x.2.2)

/-- Correspondence between a theoretical product and its result-record
entry: same formula, same theoretical mass. -/
def RelProd (p : ProductoTeorico) (r : ResProducto) : Prop :=
  r.formula = p.formula ∧ r.masaTeorica = p.masaTeorica

/-! ## Helper lemmas -/

/-- The only error `parsearFormula` can produce is the `TypeError` from an
unmatched closing parenthesis. -/
theorem parsearFormula_error_tipo (f : String) (e : JsError)
    (h : parsearFormula f = .error e) :
    e = .tipo "Cannot read properties of undefined" := by
  unfold parsearFormula at h
  cases hp : pfLoop f.data.length f.data [[]] none <;> rw [hp] at h <;> simp_all

/-- The only error `parsearCompuesto` can produce is the `TypeError` from
`parsearFormula`. -/
theorem parsearCompuesto_error_tipo (s : String) (e : JsError)
    (h : parsearCompuesto s = .error e) :
    e = .tipo "Cannot read properties of undefined" := by
  simp only [parsearCompuesto] at h
  cases hp : parsearFormula ⟨(leerDigitos (trimChars s.data)).2⟩ with
  | ok r => rw [hp] at h; simp [Except.map] at h
  | error e1 =>
    rw [hp] at h
    simp [Except.map] at h
    rw [← h]
    exact parsearFormula_error_tipo _ _ hp

/-- Mapping `parsearCompuesto` over the segments of one side can only fail
with the `TypeError` above. -/
theorem mapM_loop_parsearCompuesto_error (xs : List (List Char)) (acc : List Compuesto)
    (e : JsError)
    (h : List.mapM.loop (fun r => parsearCompuesto ⟨r⟩) xs acc = .error e) :
    e = .tipo "Cannot read properties of undefined" := by
  induction xs generalizing acc with
  | nil => simp [List.mapM.loop, pure, Except.pure] at h
  | cons x xs ih =>
    rw [List.mapM.loop] at h
    cases hx : parsearCompuesto ⟨x⟩ with
    | error e1 =>
      rw [hx] at h
      simp only [Bind.bind, Except.bind, Except.error.injEq] at h
      rw [← h]
      exact parsearCompuesto_error_tipo _ _ hx
    | ok c =>
      rw [hx] at h
      simp only [Bind.bind, Except.bind] at h
      exact ih _ h

theorem mapM_parsearCompuesto_error (xs : List (List Char)) (e : JsError)
    (h : xs.mapM (fun r => parsearCompuesto ⟨r⟩) = .error e) :
    e = .tipo "Cannot read properties of undefined" :=
  mapM_loop_parsearCompuesto_error xs [] e h

/-- Evaluation helper: the simp set that computes a `calcularMasaMolar`
application once the formula has been parsed. -/
theorem eval_masaMolar_H2O : calcularMasaMolar "H2O" = .ok (3603/200) := by
  have h1 : parsearFormula "H2O" = .ok [("H", 2), ("O", 1)] := by decide
  unfold calcularMasaMolar
  rw [h1]
  simp only [Bind.bind, Except.bind, List.foldlM, ELEMENTOS, List.lookup, String.reduceBEq,
    pure, Except.pure]
  norm_num

theorem eval_masaMolar_H2 : calcularMasaMolar "H2" = .ok (252/125) := by
  have h1 : parsearFormula "H2" = .ok [("H", 2)] := by decide
  unfold calcularMasaMolar
  rw [h1]
  simp only [Bind.bind, Except.bind, List.foldlM, ELEMENTOS, List.lookup, String.reduceBEq,
    pure, Except.pure]
  norm_num

theorem eval_masaMolar_O2 : calcularMasaMolar "O2" = .ok (15999/500) := by
  have h1 : parsearFormula "O2" = .ok [("O", 2)] := by decide
  unfold calcularMasaMolar
  rw [h1]
  simp only [Bind.bind, Except.bind, List.foldlM, ELEMENTOS, List.lookup, String.reduceBEq,
    pure, Except.pure]
  norm_num

/-! ## Claims -/

/-- **C8**: `parseFormula` folds parenthesized groups multiplicatively into
the enclosing frame: it is invariant under the redundant grouping
`(H2O)1`, and nested groups multiply correctly for `Ca(OH)2` and
`Al2(SO4)3` (count maps written in insertion order). -/
theorem C8_grupos_parentesis :
    parsearFormula "(H2O)1" = parsearFormula "H2O" ∧
    parsearFormula "Ca(OH)2" = .ok [("Ca", 1), ("O", 2), ("H", 2)] ∧
    parsearFormula "Al2(SO4)3" = .ok [("Al", 2), ("S", 3), ("O", 12)] := by
  refine ⟨?_, ?_, ?_⟩ <;> decide

/-- **C7**: for positive mass `m` and a formula whose molar mass is defined
and non-zero, `molesAMasa (masaAMoles m f) f = m` exactly (the embedding
computes with exact rationals, so "within floating tolerance" becomes
exact equality). -/
theorem C7_conversion_ida_vuelta (m M : ℚ) (f : String)
    (hm : 0 < m) (hM : calcularMasaMolar f = .ok M) (hMne : M ≠ 0) :
    (masaAMoles m f).bind (fun mo => molesAMasa mo f) = .ok m := by
  simp only [masaAMoles, molesAMasa, hM, Except.map, Except.bind]
  rw [div_mul_cancel₀ _ hMne]

/-- Witness for C7 at `m = 5`, `f = "H2O"` (molar mass `18.015`). -/
theorem C7_conversion_ida_vuelta_witness :
    0 < (5 : ℚ) ∧ calcularMasaMolar "H2O" = .ok (3603/200) ∧
    ((3603 : ℚ)/200) ≠ 0 ∧
    (masaAMoles 5 "H2O").bind (fun mo => molesAMasa mo "H2O") = .ok 5 :=
  ⟨by norm_num, eval_masaMolar_H2O, by norm_num,
   C7_conversion_ida_vuelta 5 (3603/200) "H2O" (by norm_num) eval_masaMolar_H2O (by norm_num)⟩

/-- In the two-part case, any error of `parsearEcuacion` comes from
parsing a compound, hence is the parenthesis `TypeError`, never the
arrow `Error`. -/
theorem parsearEcuacion_error_en_dos (s : String) (a b : List Char)
    (hsep : separarFlecha (normalizarFlecha s.data) = [a, b]) (e : JsError)
    (h : parsearEcuacion s = .error e) :
    e = .tipo "Cannot read properties of undefined" := by
  simp only [parsearEcuacion, hsep] at h
  cases h1 : (separarMas (trimChars a)).mapM (fun r => parsearCompuesto ⟨r⟩) with
  | error e1 =>
    rw [h1] at h
    simp only [Bind.bind, Except.bind, Except.error.injEq] at h
    rw [← h]
    exact mapM_parsearCompuesto_error _ _ h1
  | ok rs =>
    rw [h1] at h
    cases h2 : (separarMas (trimChars b)).mapM (fun p => parsearCompuesto ⟨p⟩) with
    | error e2 =>
      rw [h2] at h
      simp only [Bind.bind, Except.bind, Except.error.injEq] at h
      rw [← h]
      exact mapM_parsearCompuesto_error _ _ h2
    | ok ps =>
      rw [h2] at h
      simp only [Bind.bind, Except.bind] at h
      exact Except.noConfusion h

/-- **C3 (counterexample)**: the input `" -> H2O"` has an *empty* left
side (the first split part trims to nothing), yet `parsearEcuacion` does
not raise: it returns a parsed equation whose reactant side is a single
empty-formula term.  This refutes the claim that the parser raises
whenever the split does not yield two *non-empty* parts. -/
theorem C3_contraejemplo :
    parsearEcuacion " -> H2O" =
      .ok ⟨[⟨1, "", []⟩], [⟨1, "H2O", [("H", 2), ("O", 1)]⟩]⟩ ∧
    trimChars ((separarFlecha (normalizarFlecha (" -> H2O").data)).headD ['x']) = [] :=
  ⟨by decide, by decide⟩

/-- **C3 (amended)**: `parsearEcuacion` raises its arrow `SyntaxError` if
and only if splitting the normalized text on `->` does not yield exactly
two parts (zero separators or more than one separator).  Emptiness of the
parts is *not* checked: an empty side parses to an empty-formula term
instead of raising. -/
theorem C3_enmendada_sintaxis_sii_dos_partes (s : String) :
    (∃ msg, parsearEcuacion s = .error (.sintaxis msg)) ↔
      (separarFlecha (normalizarFlecha s.data)).length ≠ 2 := by
  rcases hsep : separarFlecha (normalizarFlecha s.data) with _ | ⟨a, _ | ⟨b, _ | ⟨c, t3⟩⟩⟩
  · constructor
    · intro _; simp
    · intro _
      refine ⟨"La ecuación debe tener exactamente una flecha de reacción (-> o →)", ?_⟩
      simp only [parsearEcuacion, hsep]
  · constructor
    · intro _; simp
    · intro _
      refine ⟨"La ecuación debe tener exactamente una flecha de reacción (-> o →)", ?_⟩
      simp only [parsearEcuacion, hsep]
  · constructor
    · rintro ⟨msg, h⟩
      have := parsearEcuacion_error_en_dos s a b hsep _ h
      simp at this
    · intro h; simp at h
  · constructor
    · intro _; simp
    · intro _
      refine ⟨"La ecuación debe tener exactamente una flecha de reacción (-> o →)", ?_⟩
      simp only [parsearEcuacion, hsep]

/-- Witness for C3 (amended) at the concrete inputs `"A -> B -> C"`
(two separators: raises) and — via the iff — `"2H2 + O2 -> 2H2O"` (one
separator: does not raise). -/
theorem C3_enmendada_witness :
    ((∃ msg, parsearEcuacion "A -> B -> C" = .error (.sintaxis msg)) ↔
      (separarFlecha (normalizarFlecha ("A -> B -> C").data)).length ≠ 2) ∧
    ((∃ msg, parsearEcuacion "2H2 + O2 -> 2H2O" = .error (.sintaxis msg)) ↔
      (separarFlecha (normalizarFlecha ("2H2 + O2 -> 2H2O").data)).length ≠ 2) :=
  ⟨C3_enmendada_sintaxis_sii_dos_partes "A -> B -> C",
   C3_enmendada_sintaxis_sii_dos_partes "2H2 + O2 -> 2H2O"⟩

/-- **C2 (counterexample)**: the equation text `"H2 + -> H2O"` (trailing
`+` on the reactant side) passes `validarEcuacion` with `valida = true`,
yet its parsed reactant list contains a term whose formula is the *empty*
string — the claimed invariant "every term has a non-empty formula string
once it passes validation" fails.  (The empty-formula term parses to an
empty element map, which `validarElementos` happily accepts.) -/
theorem C2_contraejemplo :
    (validarEcuacion "H2 + -> H2O").valida = true ∧
    parsearEcuacion "H2 + -> H2O" =
      .ok ⟨[⟨1, "H2", [("H", 2)]⟩, ⟨1, "", []⟩], [⟨1, "H2O", [("H", 2), ("O", 1)]⟩]⟩ :=
  ⟨by decide, by decide⟩

/-- **C2 (amended)**: every equation text accepted by `validarEcuacion`
does parse, with at least one reactant term and at least one product term
— but the terms' formula strings need not be non-empty. -/
theorem C2_enmendada_validacion_no_vacia (s : String)
    (h : (validarEcuacion s).valida = true) :
    ∃ pe, parsearEcuacion s = .ok pe ∧ pe.reactivos ≠ [] ∧ pe.productos ≠ [] := by
  unfold validarEcuacion at h
  cases hp : parsearEcuacion s with
  | error e => rw [hp] at h; simp [Bind.bind, Except.bind] at h
  | ok pe =>
    rw [hp] at h
    simp only [Bind.bind, Except.bind] at h
    refine ⟨pe, rfl, ?_, ?_⟩
    · intro hnil
      rw [if_pos (by simp [hnil])] at h
      simp at h
    · intro hnil
      by_cases h1 : pe.reactivos.length = 0
      · rw [if_pos h1] at h; simp at h
      · rw [if_neg h1, if_pos (by simp [hnil])] at h; simp at h

/-- Witness for C2 (amended) at `"2H2 + O2 -> 2H2O"`. -/
theorem C2_enmendada_witness :
    (validarEcuacion "2H2 + O2 -> 2H2O").valida = true ∧
    ∃ pe, parsearEcuacion "2H2 + O2 -> 2H2O" = .ok pe ∧
      pe.reactivos ≠ [] ∧ pe.productos ≠ [] :=
  ⟨by decide, C2_enmendada_validacion_no_vacia "2H2 + O2 -> 2H2O" (by decide)⟩

/-- A key that does not occur in a count map counts as 0. -/
theorem cuenta_eq_zero_of_not_mem (m : Conteo) (el : String) (h : el ∉ claves m) :
    cuenta m el = 0 := by
  induction m with
  | nil => rfl
  | cons p rest ih =>
    simp only [claves, List.map_cons, List.mem_cons, not_or] at h
    have hne : (el == p.1) = false := beq_eq_false_iff_ne.2 h.1
    simp only [cuenta, List.lookup, hne]
    exact ih (by simpa [claves] using h.2)

theorem mem_unionClaves_foldl (l : List String) (acc : List String) (el : String) :
    el ∈ l.foldl (fun acc k => if k ∈ acc then acc else acc ++ [k]) acc ↔
      el ∈ acc ∨ el ∈ l := by
  induction l generalizing acc with
  | nil => simp
  | cons k rest ih =>
    simp only [List.foldl_cons]
    by_cases hk : k ∈ acc
    · rw [if_pos hk, ih]
      constructor
      · rintro (h | h)
        · exact .inl h
        · exact .inr (List.mem_cons_of_mem _ h)
      · rintro (h | h)
        · exact .inl h
        · rcases List.mem_cons.1 h with rfl | h
          · exact .inl hk
          · exact .inr h
    · rw [if_neg hk, ih]
      simp only [List.mem_append, List.mem_singleton, List.mem_cons]
      tauto

/-- Membership in the deduplicated union key list. -/
theorem mem_unionClaves (l : List String) (el : String) :
    el ∈ unionClaves l ↔ el ∈ l := by
  unfold unionClaves
  rw [mem_unionClaves_foldl]
  simp

/-- Characterization of the detail/flag fold of `verificarBalance`. -/
theorem balance_fold_spec (aR aP : Conteo) (els : List String)
    (acc : List (String × Detalle)) (b : Bool) :
    els.foldl
      (fun (acc : List (String × Detalle) × Bool) elemento =>
        let enReactivos := cuenta aR elemento
        let enProductos := cuenta aP elemento
        (acc.1 ++ [(elemento, ⟨enReactivos, enProductos, enReactivos == enProductos⟩)],
         acc.2 && (enReactivos == enProductos)))
      (acc, b)
    = (acc ++ els.map (fun el => (el, ⟨cuenta aR el, cuenta aP el,
                                       cuenta aR el == cuenta aP el⟩)),
       b && els.all (fun el => cuenta aR el == cuenta aP el)) := by
  induction els generalizing acc b with
  | nil => simp
  | cons el rest ih =>
    simp only [List.foldl_cons, List.map_cons, List.all_cons]
    rw [ih]
    simp [Bool.and_assoc]

/-- **C9**: for every equation text that parses, `verificarBalance`
succeeds, its flag is true iff every element (present on either side;
elements absent from a side count 0 there) has equal total atom counts on
the two sides, and the per-element details record exactly those counts in
first-seen order. -/
theorem C9_balance_sii_conteos_iguales (s : String) (pe : Ecuacion)
    (hp : parsearEcuacion s = .ok pe) :
    ∃ br, verificarBalance s = .ok br ∧
      (br.balanceada = true ↔
        ∀ el : String,
          cuenta (contarAtomos pe.reactivos) el = cuenta (contarAtomos pe.productos) el) ∧
      br.detalles =
        (unionClaves (claves (contarAtomos pe.reactivos)
                      ++ claves (contarAtomos pe.productos))).map
          (fun el => (el, ⟨cuenta (contarAtomos pe.reactivos) el,
                           cuenta (contarAtomos pe.productos) el,
                           cuenta (contarAtomos pe.reactivos) el
                             == cuenta (contarAtomos pe.productos) el⟩)) := by
  unfold verificarBalance
  rw [hp]
  simp only [Bind.bind, Except.bind]
  rw [balance_fold_spec]
  refine ⟨_, rfl, ?_, by simp⟩
  simp only [Bool.true_and, List.all_eq_true, beq_iff_eq]
  constructor
  · intro h el
    by_cases hel : el ∈ unionClaves (claves (contarAtomos pe.reactivos)
                                     ++ claves (contarAtomos pe.productos))
    · exact h el hel
    · rw [mem_unionClaves, List.mem_append, not_or] at hel
      rw [cuenta_eq_zero_of_not_mem _ _ hel.1, cuenta_eq_zero_of_not_mem _ _ hel.2]
  · intro h el _
    exact h el

/-- Witness for C9 at `"2H2 + O2 -> 2H2O"`. -/
theorem C9_balance_witness :
    ∃ br, verificarBalance "2H2 + O2 -> 2H2O" = .ok br ∧
      (br.balanceada = true ↔
        ∀ el : String,
          cuenta (contarAtomos ([⟨2, "H2", [("H", 2)]⟩, ⟨1, "O2", [("O", 2)]⟩] :
                List Compuesto)) el
            = cuenta (contarAtomos ([⟨2, "H2O", [("H", 2), ("O", 1)]⟩] :
                List Compuesto)) el) ∧
      br.detalles =
        (unionClaves (claves (contarAtomos ([⟨2, "H2", [("H", 2)]⟩, ⟨1, "O2", [("O", 2)]⟩] :
                List Compuesto))
             ++ claves (contarAtomos ([⟨2, "H2O", [("H", 2), ("O", 1)]⟩] :
                List Compuesto)))).map
          (fun el => (el, ⟨cuenta (contarAtomos ([⟨2, "H2", [("H", 2)]⟩,
                             ⟨1, "O2", [("O", 2)]⟩] : List Compuesto)) el,
                           cuenta (contarAtomos ([⟨2, "H2O", [("H", 2), ("O", 1)]⟩] :
                             List Compuesto)) el,
                           cuenta (contarAtomos ([⟨2, "H2", [("H", 2)]⟩,
                             ⟨1, "O2", [("O", 2)]⟩] : List Compuesto)) el
                             == cuenta (contarAtomos ([⟨2, "H2O", [("H", 2), ("O", 1)]⟩] :
                               List Compuesto)) el⟩)) :=
  C9_balance_sii_conteos_iguales "2H2 + O2 -> 2H2O"
    ⟨[⟨2, "H2", [("H", 2)]⟩, ⟨1, "O2", [("O", 2)]⟩], [⟨2, "H2O", [("H", 2), ("O", 1)]⟩]⟩
    (by decide)

/-- Characterization of the limiting-reagent fold from a `some l` state:
either no triple strictly improves on `l` (and `l` survives), or the
result is the first triple attaining the strict minimum below `l`. -/
theorem pasoLimitante_foldl_some (xs : List (String × Option ℚ × ℚ)) (l : InfoLimitante)
    (hall : ∀ x ∈ xs, x.2.1.isSome) :
    (xs.foldl pasoLimitante (some l) = some l ∧ ∀ x ∈ xs, l.proporcion ≤ propTrio x) ∨
    (∃ l₁ x l₂, xs = l₁ ++ x :: l₂ ∧
      xs.foldl pasoLimitante (some l) = some (infoTrio x) ∧
      propTrio x < l.proporcion ∧
      (∀ y ∈ l₁, propTrio x < propTrio y) ∧
      (∀ y ∈ xs, propTrio x ≤ propTrio y)) := by
  induction xs generalizing l with
  | nil => exact .inl ⟨rfl, by simp⟩
  | cons x xs ih =>
    obtain ⟨me, hme⟩ := Option.isSome_iff_exists.1 (hall x (by simp))
    have hstep : pasoLimitante (some l) x =
        if propTrio x < l.proporcion then some (infoTrio x) else some l := by
      simp [pasoLimitante, hme, propTrio, infoTrio]
    rw [List.foldl_cons, hstep]
    by_cases hlt : propTrio x < l.proporcion
    · rw [if_pos hlt]
      rcases ih (infoTrio x) (fun y hy => hall y (by simp [hy])) with
        ⟨heq, hle⟩ | ⟨l₁, x', l₂, hdec, heq, hlt', hl₁, hall'⟩
      · refine .inr ⟨[], x, xs, by simp, heq, hlt, by simp, ?_⟩
        intro y hy
        rcases List.mem_cons.1 hy with rfl | hy
        · exact le_refl _
        · exact hle y hy
      · refine .inr ⟨x :: l₁, x', l₂, by simp [hdec], heq, lt_trans hlt' hlt, ?_, ?_⟩
        · intro y hy
          rcases List.mem_cons.1 hy with rfl | hy
          · exact hlt'
          · exact hl₁ y hy
        · intro y hy
          rcases List.mem_cons.1 hy with rfl | hy
          · exact le_of_lt hlt'
          · exact hall' y hy
    · rw [if_neg hlt]
      have hge : l.proporcion ≤ propTrio x := not_lt.1 hlt
      rcases ih l (fun y hy => hall y (by simp [hy])) with
        ⟨heq, hle⟩ | ⟨l₁, x', l₂, hdec, heq, hlt', hl₁, hall'⟩
      · refine .inl ⟨heq, ?_⟩
        intro y hy
        rcases List.mem_cons.1 hy with rfl | hy
        · exact hge
        · exact hle y hy
      · refine .inr ⟨x :: l₁, x', l₂, by simp [hdec], heq, hlt', ?_, ?_⟩
        · intro y hy
          rcases List.mem_cons.1 hy with rfl | hy
          · exact lt_of_lt_of_le hlt' hge
          · exact hl₁ y hy
        · intro y hy
          rcases List.mem_cons.1 hy with rfl | hy
          · exact le_of_lt (lt_of_lt_of_le hlt' hge)
          · exact hall' y hy

/-- The limiting-reagent fold from the initial `null`/`Infinity` state on a
non-empty list of defined-moles triples returns the first triple attaining
the minimum ratio. -/
theorem pasoLimitante_foldl_none (xs : List (String × Option ℚ × ℚ)) (hne : xs ≠ [])
    (hall : ∀ x ∈ xs, x.2.1.isSome) :
    ∃ l₁ x l₂, xs = l₁ ++ x :: l₂ ∧
      xs.foldl pasoLimitante none = some (infoTrio x) ∧
      (∀ y ∈ l₁, propTrio x < propTrio y) ∧
      (∀ y ∈ xs, propTrio x ≤ propTrio y) := by
  cases xs with
  | nil => exact absurd rfl hne
  | cons x xs =>
    obtain ⟨me, hme⟩ := Option.isSome_iff_exists.1 (hall x (by simp))
    have hstep : pasoLimitante none x = some (infoTrio x) := by
      simp [pasoLimitante, hme, infoTrio, propTrio]
    rw [List.foldl_cons, hstep]
    rcases pasoLimitante_foldl_some xs (infoTrio x) (fun y hy => hall y (by simp [hy])) with
      ⟨heq, hle⟩ | ⟨l₁, x', l₂, hdec, heq, hlt', hl₁, hall'⟩
    · refine ⟨[], x, xs, by simp, heq, by simp, ?_⟩
      intro y hy
      rcases List.mem_cons.1 hy with rfl | hy
      · exact le_refl _
      · exact hle y hy
    · refine ⟨x :: l₁, x', l₂, by simp [hdec], heq, ?_, ?_⟩
      · intro y hy
        rcases List.mem_cons.1 hy with rfl | hy
        · exact hlt'
        · exact hl₁ y hy
      · intro y hy
        rcases List.mem_cons.1 hy with rfl | hy
        · exact le_of_lt hlt'
        · exact hall' y hy

/-- When no reactant term carries a written coefficient `0`, the source's
`?.coeficiente || 1` lookup agrees with the claim's plain
default-1-on-no-match lookup. -/
theorem coeficienteDe_eq_of_nonzero (pe : Ecuacion) (f : String)
    (hc : ∀ r ∈ pe.reactivos, r.coeficiente ≠ 0) :
    coeficienteDe pe f =
      ((pe.reactivos.find? (fun r => r.formula == f)).map
        (fun r => (r.coeficiente : ℚ))).getD 1 := by
  unfold coeficienteDe
  cases hf : pe.reactivos.find? (fun r => r.formula == f) with
  | none => simp
  | some r =>
    have hr : r ∈ pe.reactivos := List.mem_of_find?_eq_some hf
    simp [hc r hr]

theorem propTrio_trioDe (pe : Ecuacion) (d : DatoReactivo) (hd : d.moles.isSome)
    (hc : ∀ r ∈ pe.reactivos, r.coeficiente ≠ 0) :
    propTrio (trioDe pe d) = razonDe pe d := by
  obtain ⟨m, hm⟩ := Option.isSome_iff_exists.1 hd
  simp [propTrio, trioDe, razonDe, hm, coeficienteDe_eq_of_nonzero pe d.formula hc]

/-- **C5**: when the equation parses, every parsed reactant coefficient is
non-zero (so the source's falsy-coalescing `?.coeficiente || 1` coincides
with the claim's default-1-on-no-match lookup), every reactant datum
carries a moles value and the list is non-empty,
`encontrarReactivoLimitante` returns the first datum attaining the
strictly smallest `effectiveMoles / coefficient` ratio: every earlier
datum has a strictly larger ratio and no datum has a smaller one. -/
theorem C5_limitante_primer_minimo (ecuacion : String) (pe : Ecuacion)
    (datos : List DatoReactivo)
    (he : parsearEcuacion ecuacion = .ok pe)
    (hc : ∀ r ∈ pe.reactivos, r.coeficiente ≠ 0)
    (hsome : ∀ d ∈ datos, d.moles.isSome)
    (hne : datos ≠ []) :
    ∃ l₁ d l₂, datos = l₁ ++ d :: l₂ ∧
      encontrarReactivoLimitante ecuacion datos =
        .ok ⟨d.formula, (d.moles.getD 0) * (d.pureza / 100), razonDe pe d⟩ ∧
      (∀ y ∈ l₁, razonDe pe d < razonDe pe y) ∧
      (∀ y ∈ datos, razonDe pe d ≤ razonDe pe y) := by
  obtain ⟨L₁, X, L₂, hdec, heq, hl₁, hmin⟩ :=
    pasoLimitante_foldl_none (datos.map (trioDe pe))
      (by simpa using hne)
      (by
        intro x hx
        obtain ⟨d, hd, rfl⟩ := List.mem_map.1 hx
        simpa [trioDe] using hsome d hd)
  obtain ⟨l₁, rest, hsplit, hmap₁, hmap₂⟩ := List.map_eq_append_iff.1 hdec
  obtain ⟨d, l₂, hrest, hX, hmapl₂⟩ := List.map_eq_cons_iff.1 hmap₂
  subst hrest hsplit
  have hd_mem : d ∈ l₁ ++ d :: l₂ := by simp
  have hdsome := hsome d hd_mem
  obtain ⟨m, hm⟩ := Option.isSome_iff_exists.1 hdsome
  refine ⟨l₁, d, l₂, rfl, ?_, ?_, ?_⟩
  · unfold encontrarReactivoLimitante
    rw [he]
    simp only [Bind.bind, Except.bind]
    rw [heq, ← hX]
    have : infoTrio (trioDe pe d) =
        ⟨d.formula, (d.moles.getD 0) * (d.pureza / 100), razonDe pe d⟩ := by
      rw [← propTrio_trioDe pe d hdsome hc]
      simp [infoTrio, trioDe, hm]
    rw [this]
  · intro y hy
    have hy_mem : y ∈ l₁ ++ d :: l₂ := by simp [hy]
    rw [← propTrio_trioDe pe d hdsome hc, ← propTrio_trioDe pe y (hsome y hy_mem) hc, hX]
    exact hl₁ (trioDe pe y) (by rw [← hmap₁]; exact List.mem_map_of_mem _ hy)
  · intro y hy
    rw [← propTrio_trioDe pe d hdsome hc, ← propTrio_trioDe pe y (hsome y hy) hc, hX]
    exact hmin (trioDe pe y) (List.mem_map_of_mem _ hy)

/-- Witness for C5 at `"2H2 + O2 -> 2H2O"` with 4 mol H2 and 1 mol O2
(the limiting reagent is O2: ratio 1 against H2's ratio 2). -/
theorem C5_limitante_witness :
    parsearEcuacion "2H2 + O2 -> 2H2O" =
      .ok ⟨[⟨2, "H2", [("H", 2)]⟩, ⟨1, "O2", [("O", 2)]⟩],
           [⟨2, "H2O", [("H", 2), ("O", 1)]⟩]⟩ ∧
    (∃ l₁ d l₂,
      ([⟨"H2", some 4, 100, 0⟩, ⟨"O2", some 1, 100, 0⟩] : List DatoReactivo)
        = l₁ ++ d :: l₂ ∧
      encontrarReactivoLimitante "2H2 + O2 -> 2H2O"
          [⟨"H2", some 4, 100, 0⟩, ⟨"O2", some 1, 100, 0⟩] =
        .ok ⟨d.formula, (d.moles.getD 0) * (d.pureza / 100),
             razonDe ⟨[⟨2, "H2", [("H", 2)]⟩, ⟨1, "O2", [("O", 2)]⟩],
                      [⟨2, "H2O", [("H", 2), ("O", 1)]⟩]⟩ d⟩ ∧
      (∀ y ∈ l₁, razonDe ⟨[⟨2, "H2", [("H", 2)]⟩, ⟨1, "O2", [("O", 2)]⟩],
                          [⟨2, "H2O", [("H", 2), ("O", 1)]⟩]⟩ d
                 < razonDe ⟨[⟨2, "H2", [("H", 2)]⟩, ⟨1, "O2", [("O", 2)]⟩],
                            [⟨2, "H2O", [("H", 2), ("O", 1)]⟩]⟩ y) ∧
      (∀ y ∈ ([⟨"H2", some 4, 100, 0⟩, ⟨"O2", some 1, 100, 0⟩] : List DatoReactivo),
        razonDe ⟨[⟨2, "H2", [("H", 2)]⟩, ⟨1, "O2", [("O", 2)]⟩],
                 [⟨2, "H2O", [("H", 2), ("O", 1)]⟩]⟩ d
        ≤ razonDe ⟨[⟨2, "H2", [("H", 2)]⟩, ⟨1, "O2", [("O", 2)]⟩],
                   [⟨2, "H2O", [("H", 2), ("O", 1)]⟩]⟩ y)) :=
  ⟨by decide,
   C5_limitante_primer_minimo "2H2 + O2 -> 2H2O" _ _
     (by decide) (by decide) (by decide) (by simp)⟩

theorem trioDe_escalar (pe : Ecuacion) (k : ℚ) (d : DatoReactivo) :
    trioDe pe (escalarDato k d) = escalarTrio k (trioDe pe d) := by
  cases hm : d.moles with
  | none => simp [trioDe, escalarDato, escalarTrio, hm]
  | some m => simp [trioDe, escalarDato, escalarTrio, hm, mul_assoc]

theorem paso_escalar (k : ℚ) (hk : 0 < k) (acc : Option InfoLimitante)
    (x : String × Option ℚ × ℚ) :
    pasoLimitante (acc.map (escalarInfo k)) (escalarTrio k x)
      = (pasoLimitante acc x).map (escalarInfo k) := by
  cases hx : x.2.1 with
  | none => simp [pasoLimitante, escalarTrio, hx]
  | some me =>
    cases acc with
    | none =>
      simp [pasoLimitante, escalarTrio, hx, escalarInfo, mul_div_assoc]
    | some l =>
      simp only [pasoLimitante, escalarTrio, hx, escalarInfo, Option.map_some']
      rw [mul_div_assoc]
      by_cases hlt : me / x.2.2 < l.proporcion
      · rw [if_pos hlt, if_pos ((mul_lt_mul_left hk).2 hlt), Option.map_some']
        rfl
      · rw [if_neg hlt, if_neg (fun h => hlt ((mul_lt_mul_left hk).1 h)),
          Option.map_some']
        rfl

theorem foldl_escalar (k : ℚ) (hk : 0 < k) (xs : List (String × Option ℚ × ℚ))
    (acc : Option InfoLimitante) :
    (xs.map (escalarTrio k)).foldl pasoLimitante (acc.map (escalarInfo k))
      = (xs.foldl pasoLimitante acc).map (escalarInfo k) := by
  induction xs generalizing acc with
  | nil => simp
  | cons x xs ih =>
    simp only [List.map_cons, List.foldl_cons, paso_escalar k hk]
    exact ih _

/-- **C6**: limiting-reagent selection is scale-invariant: multiplying
every reactant's moles by the same positive factor `k` (purities and
formulas fixed) leaves the limiting-reagent formula unchanged (and when
one call errors, the other errors identically). -/
theorem C6_escala_invariante (ecuacion : String) (datos : List DatoReactivo) (k : ℚ)
    (hk : 0 < k) (hne : datos ≠ []) :
    (encontrarReactivoLimitante ecuacion (datos.map (escalarDato k))).map (·.formula)
      = (encontrarReactivoLimitante ecuacion datos).map (·.formula) := by
  unfold encontrarReactivoLimitante
  cases he : parsearEcuacion ecuacion with
  | error e => simp [Bind.bind, Except.bind, Except.map]
  | ok pe =>
    simp only [Bind.bind, Except.bind]
    have hmap : (datos.map (escalarDato k)).map (trioDe pe)
        = (datos.map (trioDe pe)).map (escalarTrio k) := by
      simp only [List.map_map]
      congr 1
      funext d
      exact trioDe_escalar pe k d
    rw [hmap]
    conv_lhs =>
      rw [show (none : Option InfoLimitante) = Option.map (escalarInfo k) none from rfl]
    rw [foldl_escalar k hk]
    cases (datos.map (trioDe pe)).foldl pasoLimitante none with
    | none => simp [Except.map]
    | some l => simp [Except.map, escalarInfo]

/-- Witness for C6 at `"2H2 + O2 -> 2H2O"`, doubling 4 mol H2 / 1 mol O2. -/
theorem C6_escala_witness :
    (0 : ℚ) < 2 ∧
    ([⟨"H2", some 4, 100, 0⟩, ⟨"O2", some 1, 100, 0⟩] : List DatoReactivo) ≠ [] ∧
    (encontrarReactivoLimitante "2H2 + O2 -> 2H2O"
        (([⟨"H2", some 4, 100, 0⟩, ⟨"O2", some 1, 100, 0⟩] :
            List DatoReactivo).map (escalarDato 2))).map (·.formula)
      = (encontrarReactivoLimitante "2H2 + O2 -> 2H2O"
          [⟨"H2", some 4, 100, 0⟩, ⟨"O2", some 1, 100, 0⟩]).map (·.formula) :=
  ⟨by norm_num, by simp,
   C6_escala_invariante "2H2 + O2 -> 2H2O" _ 2 (by norm_num) (by simp)⟩

/-! ### Positivity of parsed counts (C4) -/

theorem leerDigitos_append (l : List Char) :
    (leerDigitos l).1 ++ (leerDigitos l).2 = l := by
  induction l with
  | nil => rfl
  | cons c rest ih =>
    simp only [leerDigitos]
    split
    · simpa using ih
    · simp

theorem leerDigitos_digits (l : List Char) :
    ∀ c ∈ (leerDigitos l).1, c.isDigit = true := by
  induction l with
  | nil => simp [leerDigitos]
  | cons c rest ih =>
    simp only [leerDigitos]
    split
    · intro x hx
      rcases List.mem_cons.1 hx with rfl | hx
      · assumption
      · exact ih x hx
    · simp

theorem leerMinusculas_append (l : List Char) :
    (leerMinusculas l).1 ++ (leerMinusculas l).2 = l := by
  induction l with
  | nil => rfl
  | cons c rest ih =>
    simp only [leerMinusculas]
    split
    · simpa using ih
    · simp

/-- A digit character other than `'0'` has code point at least 49. -/
theorem digito_no_cero (c : Char) (hd : c.isDigit = true) (h0 : c ≠ '0') :
    49 ≤ c.toNat := by
  simp [Char.isDigit] at hd
  obtain ⟨h1, h2⟩ := hd
  have h48 : (48 : ℕ) ≤ c.val.toNat := UInt32.le_toNat_of_le (by norm_num [UInt32.size]) h1
  have hne : c.toNat ≠ 48 := by
    intro h
    apply h0
    apply Char.ext
    apply UInt32.toNat.inj
    simpa [Char.toNat] using h
  simp only [Char.toNat] at *
  omega

theorem parseNat_foldl_pos (rest : List Char) (acc : ℕ) (h : 0 < acc) :
    0 < rest.foldl (fun a c => a * 10 + (c.toNat - 48)) acc := by
  induction rest generalizing acc with
  | nil => exact h
  | cons c rest ih =>
    simp only [List.foldl_cons]
    exact ih _ (by omega)

/-- `parseInt` of a non-empty digit run containing no `'0'` is positive. -/
theorem parseNat_pos (run : List Char) (hne : run ≠ [])
    (hd : ∀ c ∈ run, c.isDigit = true) (h0 : '0' ∉ run) : 0 < parseNat run := by
  cases run with
  | nil => exact absurd rfl hne
  | cons c rest =>
    have hc : 49 ≤ c.toNat :=
      digito_no_cero c (hd c (by simp)) (fun h => h0 (by simp [h]))
    simp only [parseNat, List.foldl_cons]
    exact parseNat_foldl_pos rest _ (by omega)

/-- A written multiplier whose digit run contains no `'0'` is positive
(an absent run defaults to 1). -/
theorem valorNumero_pos (run : List Char)
    (hd : ∀ c ∈ run, c.isDigit = true) (h0 : '0' ∉ run) : 0 < valorNumero run := by
  unfold valorNumero
  split
  · exact Nat.one_pos
  · next hemp => exact parseNat_pos run (by simpa [List.isEmpty_iff] using hemp) hd h0

theorem addConteo_pos (m : Conteo) (el : String) (n : ℕ)
    (hm : ∀ p ∈ m, 0 < p.2) (hn : 0 < n) :
    ∀ p ∈ addConteo m el n, 0 < p.2 := by
  unfold addConteo
  split
  · intro p hp
    obtain ⟨q, hq, rfl⟩ := List.mem_map.1 hp
    by_cases hq1 : q.1 = el
    · rw [if_pos hq1]
      have := hm q hq
      omega
    · rw [if_neg hq1]
      exact hm q hq
  · intro p hp
    rcases List.mem_append.1 hp with hp | hp
    · exact hm p hp
    · rcases List.mem_singleton.1 hp with rfl
      exact hn

theorem merge_pos (grupo : Conteo) (mult : ℕ) (hmult : 0 < mult) :
    ∀ (actual : Conteo), (∀ p ∈ grupo, 0 < p.2) → (∀ p ∈ actual, 0 < p.2) →
    ∀ p ∈ grupo.foldl (fun acc q => addConteo acc q.1 (q.2 * mult)) actual, 0 < p.2 := by
  induction grupo with
  | nil => intro actual _ ha; simpa using ha
  | cons q grupo ih =>
    intro actual hg ha
    simp only [List.foldl_cons]
    exact ih _ (fun p hp => hg p (by simp [hp]))
      (addConteo_pos actual q.1 (q.2 * mult) ha
        (Nat.mul_pos (hg q (by simp)) hmult))

/-- The end-of-input result of the loop is positive when every stack frame
and the frozen map are. -/
theorem pfLoop_nil_pos (pila : List Conteo) (frozen : Option Conteo)
    (hpila : ∀ m ∈ pila, ∀ p ∈ m, 0 < p.2)
    (hfro : ∀ m, frozen = some m → ∀ p ∈ m, 0 < p.2)
    (res : Conteo)
    (hres : some (resultadoFinal pila frozen) = some res) :
    ∀ p ∈ res, 0 < p.2 := by
  have hr : resultadoFinal pila frozen = res := by injection hres
  subst hr
  cases frozen with
  | some r => exact hfro r rfl
  | none =>
    unfold resultadoFinal
    cases hg : pila.getLast? with
    | none => simp
    | some m =>
      simp only [Option.getD_some]
      exact hpila m (List.mem_of_getLast?_eq_some hg)

/-- Every count frame ever stored by the scanning loop holds only positive
entries while the input contains no `'0'` digit; hence so does any map the
loop returns. -/
theorem pfLoop_pos (fuel : ℕ) :
    ∀ (l : List Char) (pila : List Conteo) (frozen : Option Conteo),
    '0' ∉ l →
    (∀ m ∈ pila, ∀ p ∈ m, 0 < p.2) →
    (∀ m, frozen = some m → ∀ p ∈ m, 0 < p.2) →
    ∀ res, pfLoop fuel l pila frozen = some res → ∀ p ∈ res, 0 < p.2 := by
  induction fuel with
  | zero =>
    intro l pila frozen hl hpila hfro res hres
    cases l with
    | nil => exact pfLoop_nil_pos pila frozen hpila hfro res hres
    | cons c rest =>
      have : (none : Option Conteo) = some res := hres
      exact Option.noConfusion this
  | succ fuel ih =>
    intro l pila frozen hl hpila hfro res hres
    cases l with
    | nil => exact pfLoop_nil_pos pila frozen hpila hfro res hres
    | cons c rest =>
      have hl0 : ('0' : Char) ∉ rest := fun h => hl (List.mem_cons_of_mem _ h)
      have hrun_sub : ∀ c' ∈ (leerDigitos rest).1, c' ∈ rest := by
        intro c' hc'
        rw [← leerDigitos_append rest]
        exact List.mem_append.2 (.inl hc')
      have hrest_sub : ∀ c' ∈ (leerDigitos rest).2, c' ∈ rest := by
        intro c' hc'
        rw [← leerDigitos_append rest]
        exact List.mem_append.2 (.inr hc')
      have hmult : 0 < valorNumero (leerDigitos rest).1 :=
        valorNumero_pos _ (leerDigitos_digits rest) (fun h => hl0 (hrun_sub _ h))
      have hl2 : ('0' : Char) ∉ (leerDigitos rest).2 :=
        fun h => hl0 (hrest_sub _ h)
      by_cases hpar : c = '('
      · subst hpar
        refine ih rest ([] :: pila) frozen hl0 ?_ hfro res hres
        intro m hm
        rcases List.mem_cons.1 hm with rfl | hm
        · simp
        · exact hpila m hm
      · by_cases hcie : c = ')'
        · subst hcie
          cases pila with
          | nil => exact ih _ [] frozen hl2 (by simp) hfro res hres
          | cons grupo resto =>
            cases resto with
            | nil =>
              cases grupo with
              | nil =>
                refine ih _ [] _ hl2 (by simp) ?_ res hres
                cases frozen with
                | none =>
                  intro m hm
                  have : ([] : Conteo) = m := by
                    simpa [congelar] using hm
                  subst this
                  simp
                | some r =>
                  intro m hm
                  have : r = m := by simpa [congelar] using hm
                  subst this
                  exact hfro r rfl
              | cons q qs =>
                have : (none : Option Conteo) = some res := hres
                exact Option.noConfusion this
            | cons actual resto' =>
              refine ih _ _ frozen hl2 ?_ hfro res hres
              intro m hm
              rcases List.mem_cons.1 hm with rfl | hm
              · exact merge_pos grupo _ hmult actual
                  (fun p hp => hpila grupo (by simp) p hp)
                  (fun p hp => hpila actual (by simp) p hp)
              · exact hpila m (by simp [hm])
        · -- ni '(' ni ')': carácter de elemento u otro
          cases pila with
          | nil =>
            have hred : pfLoop (fuel + 1) (c :: rest) [] frozen =
                (if c.isUpper then none else pfLoop fuel rest [] frozen) := by
              simp only [pfLoop]
              rw [if_neg hpar, if_neg hcie]
            rw [hred] at hres
            by_cases hup : c.isUpper
            · rw [if_pos hup] at hres
              exact Option.noConfusion hres
            · rw [if_neg hup] at hres
              exact ih rest [] frozen hl0 (by simp) hfro res hres
          | cons actual resto =>
            have hred : pfLoop (fuel + 1) (c :: rest) (actual :: resto) frozen =
                (if c.isUpper then
                   pfLoop fuel (leerDigitos (leerMinusculas rest).2).2
                     ((addConteo actual ⟨c :: (leerMinusculas rest).1⟩
                        (valorNumero (leerDigitos (leerMinusculas rest).2).1)) :: resto)
                     frozen
                 else pfLoop fuel rest (actual :: resto) frozen) := by
              simp only [pfLoop]
              rw [if_neg hpar, if_neg hcie]
            rw [hred] at hres
            by_cases hup : c.isUpper
            · rw [if_pos hup] at hres
              have hlm_sub : ∀ c' ∈ (leerMinusculas rest).2, c' ∈ rest := by
                intro c' hc'
                rw [← leerMinusculas_append rest]
                exact List.mem_append.2 (.inr hc')
              have hsub2 : ∀ c' ∈ (leerDigitos (leerMinusculas rest).2).1,
                  c' ∈ (leerMinusculas rest).2 := by
                intro c' hc'
                rw [← leerDigitos_append (leerMinusculas rest).2]
                exact List.mem_append.2 (.inl hc')
              have hsub3 : ∀ c' ∈ (leerDigitos (leerMinusculas rest).2).2,
                  c' ∈ (leerMinusculas rest).2 := by
                intro c' hc'
                rw [← leerDigitos_append (leerMinusculas rest).2]
                exact List.mem_append.2 (.inr hc')
              have hsubpos : 0 < valorNumero (leerDigitos (leerMinusculas rest).2).1 :=
                valorNumero_pos _ (leerDigitos_digits _)
                  (fun h => hl0 (hlm_sub _ (hsub2 _ h)))
              refine ih _ _ frozen
                (fun h => hl0 (hlm_sub _ (hsub3 _ h))) ?_ hfro res hres
              intro m hm
              rcases List.mem_cons.1 hm with rfl | hm
              · exact addConteo_pos actual _ _
                  (fun p hp => hpila actual (by simp) p hp) hsubpos
              · exact hpila m (by simp [hm])
            · rw [if_neg hup] at hres
              exact ih rest (actual :: resto) frozen hl0 hpila hfro res hres

theorem trimChars_subset (l : List Char) : ∀ c ∈ trimChars l, c ∈ l := by
  intro c hc
  unfold trimChars at hc
  rw [List.mem_reverse] at hc
  have hc2 : c ∈ (l.dropWhile Char.isWhitespace).reverse :=
    (List.dropWhile_sublist _).subset hc
  rw [List.mem_reverse] at hc2
  exact (List.dropWhile_sublist _).subset hc2

/-- Shape of a successful `parsearCompuesto`: coefficient from the leading
digit run, formula the remainder, elements from `parsearFormula`. -/
theorem parsearCompuesto_ok (s : String) (comp : Compuesto)
    (h : parsearCompuesto s = .ok comp) :
    comp.coeficiente = valorNumero (leerDigitos (trimChars s.data)).1 ∧
    comp.formula = ⟨(leerDigitos (trimChars s.data)).2⟩ ∧
    parsearFormula ⟨(leerDigitos (trimChars s.data)).2⟩ = .ok comp.elementos := by
  simp only [parsearCompuesto] at h
  cases hp : parsearFormula ⟨(leerDigitos (trimChars s.data)).2⟩ with
  | error e => rw [hp] at h; simp [Except.map] at h
  | ok el =>
    rw [hp] at h
    simp only [Except.map, Except.ok.injEq] at h
    rw [← h]
    exact ⟨rfl, rfl, rfl⟩

/-- **C4 (counterexample)**: the input `"H0"` carries the written
subscript `0`, and `parsearFormula` returns a map holding the *zero* entry
`H ↦ 0`, refuting "the ElementCount map never holds a zero entry" and
"every subscript folded into a count is a positive integer" as stated for
*every* input string. -/
theorem C4_contraejemplo : parsearFormula "H0" = .ok [("H", 0)] := by decide

/-- **C4 (amended)**: counts are natural numbers (never negative by
construction), and for every input that contains no `'0'` digit character
— so that every written subscript, group multiplier and coefficient is a
positive numeral — every entry of the returned map is positive, the
parsed coefficient is positive, and a compound whose trimmed text does
not start with a digit gets the default coefficient 1. -/
theorem C4_enmendada_positividad (s : String) (h0 : '0' ∉ s.data) :
    (∀ m, parsearFormula s = .ok m → ∀ p ∈ m, 0 < p.2) ∧
    (∀ comp, parsearCompuesto s = .ok comp →
      0 < comp.coeficiente ∧ ∀ p ∈ comp.elementos, 0 < p.2) ∧
    (∀ comp, parsearCompuesto s = .ok comp →
      (∀ c, (trimChars s.data).head? = some c → ¬c.isDigit) →
      comp.coeficiente = 1) := by
  have htrim : ('0' : Char) ∉ trimChars s.data :=
    fun h => h0 (trimChars_subset s.data '0' h)
  have hrun_sub : ∀ c ∈ (leerDigitos (trimChars s.data)).1, c ∈ trimChars s.data := by
    intro c hc
    rw [← leerDigitos_append (trimChars s.data)]
    exact List.mem_append.2 (.inl hc)
  have hrest_sub : ∀ c ∈ (leerDigitos (trimChars s.data)).2, c ∈ trimChars s.data := by
    intro c hc
    rw [← leerDigitos_append (trimChars s.data)]
    exact List.mem_append.2 (.inr hc)
  refine ⟨?_, ?_, ?_⟩
  · intro m hm
    unfold parsearFormula at hm
    cases hp : pfLoop s.data.length s.data [[]] none with
    | none => rw [hp] at hm; simp at hm
    | some r =>
      rw [hp] at hm
      simp only [Except.ok.injEq] at hm
      subst hm
      exact pfLoop_pos s.data.length s.data [[]] none h0
        (by intro mm hmm p hp2; rcases List.mem_singleton.1 hmm with rfl; simp at hp2)
        (by intro mm hmm; exact Option.noConfusion hmm) r hp
  · intro comp hcomp
    obtain ⟨hco, hfo, hel⟩ := parsearCompuesto_ok s comp hcomp
    constructor
    · rw [hco]
      exact valorNumero_pos _ (leerDigitos_digits _)
        (fun h => htrim (hrun_sub _ h))
    · intro p hp
      unfold parsearFormula at hel
      cases hpf : pfLoop (leerDigitos (trimChars s.data)).2.length
          (leerDigitos (trimChars s.data)).2 [[]] none with
      | none => rw [hpf] at hel; simp at hel
      | some r =>
        rw [hpf] at hel
        simp only [Except.ok.injEq] at hel
        refine pfLoop_pos _ _ [[]] none
          (fun h => htrim (hrest_sub _ h))
          (by intro mm hmm q hq2; rcases List.mem_singleton.1 hmm with rfl; simp at hq2)
          (by intro mm hmm; exact Option.noConfusion hmm) r hpf p ?_
        rw [hel]
        exact hp
  · intro comp hcomp hnd
    obtain ⟨hco, _, _⟩ := parsearCompuesto_ok s comp hcomp
    rw [hco]
    cases ht : trimChars s.data with
    | nil => simp [ht, leerDigitos, valorNumero]
    | cons c rest =>
      have hc : ¬c.isDigit := hnd c (by rw [ht]; rfl)
      simp [ht, leerDigitos, hc, valorNumero]

/-- Witness for C4 (amended) at `"H2O"` (contains no `'0'`, starts with a
letter). -/
theorem C4_enmendada_witness :
    ('0' ∉ ("H2O").data) ∧
    ((∀ m, parsearFormula "H2O" = .ok m → ∀ p ∈ m, 0 < p.2) ∧
     (∀ comp, parsearCompuesto "H2O" = .ok comp →
       0 < comp.coeficiente ∧ ∀ p ∈ comp.elementos, 0 < p.2) ∧
     (∀ comp, parsearCompuesto "H2O" = .ok comp →
       (∀ c, (trimChars ("H2O").data).head? = some c → ¬c.isDigit) →
       comp.coeficiente = 1)) :=
  ⟨by decide, C4_enmendada_positividad "H2O" (by decide)⟩

/-- An equation accepted by `validarEcuacion` parses successfully. -/
theorem validarEcuacion_parse_ok (s : String)
    (h : (validarEcuacion s).valida = true) :
    ∃ pe, parsearEcuacion s = .ok pe := by
  unfold validarEcuacion at h
  cases hp : parsearEcuacion s with
  | error e => rw [hp] at h; simp [Bind.bind, Except.bind] at h
  | ok pe => exact ⟨pe, rfl⟩

/-- **C10**: for every equation passing validation and balance
verification, calling `calcularEstequiometria` with an *empty* reactant
list reaches limiting-reagent detection with a `null` candidate and fails
with the JavaScript `TypeError` from reading `limitante.formula` — it
never returns a result record. -/
theorem C10_sin_reactivos_error (ecuacion : String) (br : Balance)
    (hv : (validarEcuacion ecuacion).valida = true)
    (hb : verificarBalance ecuacion = .ok br)
    (hbal : br.balanceada = true) :
    calcularEstequiometria ecuacion [] none =
      .error (.tipo "Cannot read properties of null (reading 'formula')") := by
  obtain ⟨pe, hpe⟩ := validarEcuacion_parse_ok ecuacion hv
  simp [calcularEstequiometria, encontrarReactivoLimitante, hv, hb, hbal, hpe,
    Bind.bind, Except.bind, List.mapM, List.mapM.loop, pure, Except.pure,
    throw, throwThe, MonadExceptOf.throw]

/-- Witness for C10 at `"2H2 + O2 -> 2H2O"`. -/
theorem C10_sin_reactivos_witness :
    (validarEcuacion "2H2 + O2 -> 2H2O").valida = true ∧
    verificarBalance "2H2 + O2 -> 2H2O" =
      .ok ⟨true, [("H", ⟨4, 4, true⟩), ("O", ⟨2, 2, true⟩)]⟩ ∧
    calcularEstequiometria "2H2 + O2 -> 2H2O" [] none =
      .error (.tipo "Cannot read properties of null (reading 'formula')") :=
  ⟨by decide, by decide,
   C10_sin_reactivos_error "2H2 + O2 -> 2H2O"
     ⟨true, [("H", ⟨4, 4, true⟩), ("O", ⟨2, 2, true⟩)]⟩
     (by decide) (by decide) rfl⟩

/-- The percent-yield step with both an actual mass and actual moles
supplied: the mass that is actually used is the one derived from the
*moles* value; the supplied `masaReal` is dead. -/
theorem calcularPorcentajeOpcional_moles (pts : List ProductoTeorico)
    (f : String) (a n : ℚ) :
    calcularPorcentajeOpcional pts (some ⟨f, some a, some n⟩) =
      (pts.find? (fun p => p.formula == f)).elim (.ok none)
        (fun pt => (molesAMasa n f).map
          (fun mr => some (calcularPorcentajeRendimiento mr pt.masaTeorica))) := by
  have hred : calcularPorcentajeOpcional pts (some ⟨f, some a, some n⟩) =
      (match pts.find? (fun p => p.formula == f) with
       | none => (Except.ok none : Except JsError (Option ℚ))
       | some productoTeorico =>
         Except.bind (Except.map some (molesAMasa n f))
           (fun masaReal => Except.ok (masaReal.map (fun mr =>
             calcularPorcentajeRendimiento mr productoTeorico.masaTeorica)))) := rfl
  rw [hred]
  cases hfind : pts.find? (fun p => p.formula == f) with
  | none => rfl
  | some pt =>
    cases hm : molesAMasa n f with
    | error e => simp [hm, Except.bind, Except.map, Option.elim]
    | ok mr => simp [hm, Except.bind, Except.map, Option.elim]

theorem mapM_productoARes_loop (pts : List ProductoTeorico) :
    ∀ (acc prs : List ResProducto),
    List.mapM.loop productoARes pts acc = .ok prs →
    ∃ rs, prs = acc.reverse ++ rs ∧ List.Forall₂ RelProd pts rs := by
  induction pts with
  | nil =>
    intro acc prs h
    refine ⟨[], ?_, List.Forall₂.nil⟩
    have : acc.reverse = prs := by
      simpa [List.mapM.loop, pure, Except.pure] using h
    simp [this]
  | cons p pts ih =>
    intro acc prs h
    rw [List.mapM.loop] at h
    cases hg : productoARes p with
    | error e => rw [hg] at h; simp [Bind.bind, Except.bind] at h
    | ok b =>
      rw [hg] at h
      simp only [Bind.bind, Except.bind] at h
      obtain ⟨rs, hprs, hrel⟩ := ih (b :: acc) prs h
      refine ⟨b :: rs, ?_, List.Forall₂.cons ?_ hrel⟩
      · simp [hprs]
      · unfold productoARes at hg
        cases hmm : calcularMasaMolar p.formula with
        | error e => rw [hmm] at hg; simp [Bind.bind, Except.bind] at hg
        | ok mm =>
          rw [hmm] at hg
          simp only [Bind.bind, Except.bind, Except.ok.injEq] at hg
          rw [← hg]
          exact ⟨rfl, rfl⟩

theorem find?_relProd (f : String) (F : ℚ → ℚ) :
    ∀ {pts : List ProductoTeorico} {rs : List ResProducto},
    List.Forall₂ RelProd pts rs →
    (rs.find? (fun r => r.formula == f)).map (fun r => F r.masaTeorica)
      = (pts.find? (fun p => p.formula == f)).map (fun p => F p.masaTeorica) := by
  intro pts rs h
  induction h with
  | nil => rfl
  | @cons p r pts rs h1 h2 ih =>
    simp only [List.find?]
    rw [h1.1]
    cases hf : (p.formula == f) with
    | false => exact ih
    | true => simp [h1.2]

/-- Pipeline extraction: on any successful run with both actual mass and
actual moles supplied, the recorded percent yield is computed from the
*moles*-derived mass against the matching product's theoretical mass
(0 when that theoretical mass is 0), and is `none` when no product entry
matches. -/
theorem calcularEstequiometria_porcentaje (ecuacion : String)
    (datos : List DatoEntrada) (f : String) (a n : ℚ) (res : Resultado)
    (hrun : calcularEstequiometria ecuacion datos (some ⟨f, some a, some n⟩) = .ok res) :
    res.porcentajeRendimiento =
      (res.productos.find? (fun p => p.formula == f)).map
        (fun p => if p.masaTeorica = 0 then 0
                  else ((molesAMasa n f).toOption.getD 0) / p.masaTeorica * 100) := by
  simp only [calcularEstequiometria] at hrun
  by_cases hval : (validarEcuacion ecuacion).valida
  case neg =>
    rw [Bool.not_eq_true] at hval
    simp [hval, Bind.bind, Except.bind, throw, throwThe, MonadExceptOf.throw] at hrun
  case pos =>
  cases hb : verificarBalance ecuacion with
  | error e =>
    simp [hval, hb, Bind.bind, Except.bind, pure, Except.pure] at hrun
  | ok bal =>
  by_cases hbal : bal.balanceada
  case neg =>
    rw [Bool.not_eq_true] at hbal
    simp [hval, hb, hbal, Bind.bind, Except.bind, pure, Except.pure,
      throw, throwThe, MonadExceptOf.throw] at hrun
  case pos =>
  simp only [hval, hb, hbal, Bool.not_true, Bind.bind, Except.bind, pure, Except.pure,
    Bool.false_eq_true, if_false] at hrun
  cases hnorm : datos.mapM normalizarDato with
  | error e => simp only [hnorm] at hrun; exact Except.noConfusion hrun
  | ok rcm =>
  simp only [hnorm] at hrun
  cases henc : encontrarReactivoLimitante ecuacion rcm with
  | error e => simp only [henc] at hrun; exact Except.noConfusion hrun
  | ok lim =>
  simp only [henc] at hrun
  cases hexc : calcularExceso ecuacion rcm lim with
  | error e => simp only [hexc] at hrun; exact Except.noConfusion hrun
  | ok exc =>
  simp only [hexc] at hrun
  cases hpt : calcularRendimientoTeorico ecuacion lim with
  | error e => simp only [hpt] at hrun; exact Except.noConfusion hrun
  | ok pts =>
  simp only [hpt] at hrun
  cases hpor : calcularPorcentajeOpcional pts (some ⟨f, some a, some n⟩) with
  | error e => simp only [hpor] at hrun; exact Except.noConfusion hrun
  | ok por =>
  simp only [hpor] at hrun
  cases hmml : calcularMasaMolar lim.formula with
  | error e => simp only [hmml] at hrun; exact Except.noConfusion hrun
  | ok mml =>
  simp only [hmml] at hrun
  cases hexr : exc.mapM excesoARes with
  | error e => simp only [hexr] at hrun; exact Except.noConfusion hrun
  | ok exr =>
  simp only [hexr] at hrun
  cases hprs : pts.mapM productoARes with
  | error e => simp only [hprs] at hrun; exact Except.noConfusion hrun
  | ok prs =>
  simp only [hprs, Except.ok.injEq] at hrun
  have hres : res = ⟨true, true, ⟨lim.formula, mml, lim.moles⟩, exr, prs, por⟩ :=
    hrun.symm
  subst hres
  obtain ⟨rs, hrs, hrel⟩ := mapM_productoARes_loop pts [] prs hprs
  rw [List.reverse_nil, List.nil_append] at hrs
  subst hrs
  rw [calcularPorcentajeOpcional_moles] at hpor
  simp only
  rw [find?_relProd f
    (fun t => if t = 0 then 0 else ((molesAMasa n f).toOption.getD 0) / t * 100) hrel]
  cases hfind : pts.find? (fun p => p.formula == f) with
  | none =>
    rw [hfind] at hpor
    simp only [Option.elim, Except.ok.injEq] at hpor
    rw [← hpor]
    simp
  | some pt =>
    rw [hfind] at hpor
    simp only [Option.elim] at hpor
    cases hmr : molesAMasa n f with
    | error e => rw [hmr] at hpor; simp [Except.map] at hpor
    | ok mr =>
      rw [hmr] at hpor
      simp only [Except.map, Except.ok.injEq] at hpor
      rw [← hpor]
      simp only [Option.map_some', Except.toOption, Option.getD_some]
      unfold calcularPorcentajeRendimiento
      rfl

/-- **C1 (amended)**: in `calcularEstequiometria`, when the actual-product
record supplies *both* an actual mass and actual moles, the value used for
percent yield is the mass derived from the actual **moles** (moles
preferred over mass — the opposite of the claim's preference), and the
percent is `(actualMass / theoreticalMass) * 100`, or 0 when the
theoretical mass is exactly 0; no entry matching the product formula
yields no percentage. -/
theorem C1_enmendada_moles_preferidos (ecuacion : String) (datos : List DatoEntrada)
    (f : String) (a n : ℚ) :
    (calcularEstequiometria ecuacion datos (some ⟨f, some a, some n⟩)).map
        (fun res => res.porcentajeRendimiento)
      = (calcularEstequiometria ecuacion datos (some ⟨f, some a, some n⟩)).map
          (fun res => (res.productos.find? (fun p => p.formula == f)).map
            (fun p => if p.masaTeorica = 0 then 0
                      else ((molesAMasa n f).toOption.getD 0) / p.masaTeorica * 100)) := by
  cases hrun : calcularEstequiometria ecuacion datos (some ⟨f, some a, some n⟩) with
  | error e => rfl
  | ok res =>
    simp only [Except.map]
    exact congrArg Except.ok
      (calcularEstequiometria_porcentaje ecuacion datos f a n res hrun)

/-- **C1 (counterexample)**: equation `"H2 -> H2"`, one reactant
(1 mol H2), actual product `{formula: "H2", masaReal: 10, molesReales: 2}`.
The theoretical mass is `252/125` (= 2.016 g) and the engine returns
percent yield `some 200` — the value obtained from the actual *moles*
(2 mol → 4.032 g → 200%).  Had the actual *mass* (10 g) been preferred as
the claim states, the percent would be `10 / (252/125) * 100 ≈ 496`, which
is not 200.  Hence "the actual mass is the value used (mass preferred over
moles)" is false on the code. -/
theorem C1_contraejemplo :
    (calcularEstequiometria "H2 -> H2" [⟨"H2", none, some 1, none⟩]
        (some ⟨"H2", some 10, some 2⟩)).map
        (fun r => (r.porcentajeRendimiento, r.productos.map (fun p => p.masaTeorica)))
      = .ok (some 200, [252/125]) ∧
    (10 : ℚ) / (252/125) * 100 ≠ 200 := by
  constructor
  · have h3 : parsearEcuacion "H2 -> H2" =
        .ok ⟨[⟨1, "H2", [("H", 2)]⟩], [⟨1, "H2", [("H", 2)]⟩]⟩ := by decide
    have h1 : validarEcuacion "H2 -> H2" = ⟨true, none⟩ := by decide
    have h2 : verificarBalance "H2 -> H2" = .ok ⟨true, [("H", ⟨2, 2, true⟩)]⟩ := by decide
    norm_num [calcularEstequiometria, normalizarDato, encontrarReactivoLimitante,
      calcularExceso, calcularRendimientoTeorico, calcularPorcentajeOpcional,
      excesoARes, productoARes, molesAMasa, masaAMoles, calcularPorcentajeRendimiento,
      trioDe, coeficienteDe, pasoLimitante, h1, h2, h3, eval_masaMolar_H2,
      Bind.bind, Except.bind, Except.map, List.mapM, List.mapM.loop,
      pure, Except.pure, List.foldlM, List.foldl, List.find?, List.map, Option.elim,
      throw, throwThe, MonadExceptOf.throw]
  · norm_num
